import Mathlib

/-!
Verification of the tyk-proxy access-control pipeline.

This file gives a shallow embedding, in Lean 4, of the core of the
tyk-proxy repository: the authorization middleware (`internal/auth`),
the rate limiter (`internal/ratelimit/service`), the Redis-backed
fixed-window counter store, and the token record store
(`internal/store`).  Pure Go functions become Lean functions; the
Redis backing stores become explicit state records; Go's
`(value, error)` returns become `Except`/`Option` values; machine
integers (Go `int`/`int64`) are modelled as unbounded `Int` (overflow
is out of scope for every property proved here); external library
calls (`time.Parse`, `json.Unmarshal`) are modelled as oracle
parameters that return `Option`.
-/

namespace TykProxy

/-! ### Go string primitives

Strings are modelled at the level of their character lists.  The
whitespace class below is the Latin-1 part of the class used by Go's
`strings.TrimSpace` (`'\t'`, `'\n'`, `'\v'`, `'\f'`, `'\r'`, `' '`,
U+0085, U+00A0); higher Unicode space code points are not modelled.
-/

def goIsSpace (c : Char) : Bool :=
  c = ' ' || c = '\t' || c = '\n' || c = '\r' ||
  c = Char.ofNat 11 || c = Char.ofNat 12 || c = Char.ofNat 133 || c = Char.ofNat 160

/-- Drop leading whitespace, as the left half of Go `strings.TrimSpace`. -/
def goTrimLeft : List Char → List Char
  | [] => []
  | c :: cs => if goIsSpace c then goTrimLeft cs else c :: cs

/-- Drop trailing whitespace, as the right half of Go `strings.TrimSpace`. -/
def goTrimRight (l : List Char) : List Char :=
  (goTrimLeft l.reverse).reverse

/-- Go `strings.TrimSpace`: drop leading and trailing whitespace. -/
def goTrimSpace (l : List Char) : List Char :=
  goTrimRight (goTrimLeft l)

/-- Go `strings.SplitN(v, " ", 2)`, in the form used by `extractBearer`:
`none` when `v` has no space (Go returns a one-element slice, which the
caller rejects), otherwise the parts before and after the first space. -/
def splitAtFirstSpace : List Char → Option (List Char × List Char)
  | [] => none
  | c :: cs =>
    if c = ' ' then some ([], cs)
    else
      match splitAtFirstSpace cs with
      | none => none
      | some (a, b) => some (c :: a, b)

/-- ASCII lower-casing of one character (non-ASCII characters are kept). -/
def asciiLower (c : Char) : Char :=
  if 'A' ≤ c ∧ c ≤ 'Z' then Char.ofNat (c.toNat + 32) else c

/-- Go `strings.EqualFold`, restricted to the ASCII simple fold.  This
coincides with Go's Unicode simple case-folding whenever one side is an
ASCII string containing none of the letters `k`, `s` (the only ASCII
letters with non-ASCII fold partners); the only use in the source
compares against the ASCII constant "Bearer". -/
def goEqualFold (a b : List Char) : Bool :=
  a.map asciiLower = b.map asciiLower

/-- The constant "Bearer" compared against by `extractBearer`. -/
def bearerChars : List Char := ['B', 'e', 'a', 'r', 'e', 'r']

/-- Embedding of `AuthorizationMiddlewareService.extractBearer`
(src/unnamed/part_002, lines 142-159): trim the header value, reject if
empty, split at the first space into exactly two parts, require the
first part to equal "Bearer" case-insensitively, trim the second part
and require it non-empty; return the trimmed second part. -/
def extractBearer (v : List Char) : Option (List Char) :=
  let v' := goTrimSpace v
  if v' = [] then none
  else
    match splitAtFirstSpace v' with
    | none => none
    | some (p0, p1) =>
      if goEqualFold p0 bearerChars then
        let t := goTrimSpace p1
        if t = [] then none else some t
      else none

/-- String-level wrapper for `extractBearer`. -/
def extractBearerS (v : String) : Option String :=
  (extractBearer v.data).map (fun l => ⟨l⟩)

/-- Embedding of `AuthorizationMiddlewareService.isAllowedPath`
(src/unnamed/part_002, lines 168-194): an empty path matches nothing;
each pattern is whitespace-trimmed; blank patterns are skipped; "*"
matches; a trailing "*" matches by prefix (one final "*" stripped);
otherwise exact match. -/
def isAllowedPath (path : List Char) (patterns : List (List Char)) : Bool :=
  if path = [] then false else isAllowedPathGo path patterns
where
  isAllowedPathGo (path : List Char) : List (List Char) → Bool
    | [] => false
    | p :: rest =>
      let q := goTrimSpace p
      if q = [] then isAllowedPathGo path rest
      else if q = ['*'] then true
      else if q.getLast? = some '*' then
        if q.dropLast.isPrefixOf path then true else isAllowedPathGo path rest
      else if path = q then true else isAllowedPathGo path rest

/-- String-level wrapper for `isAllowedPath`. -/
def isAllowedPathS (path : String) (patterns : List String) : Bool :=
  isAllowedPath path.data (patterns.map String.data)

/-! ### Data model

Time instants are modelled as integers (`time.Time.After` becomes `<`).
`Claims.exp` models `RegisteredClaims.ExpiresAt`, which for this claims
type is what `GetExpirationTime` returns with a nil error: `none` is a
nil `*NumericDate`. -/

/-- Claims parsed from the JWT (src/unnamed/part_003). -/
structure Claims where
  apiKey : String
  allowedRoutes : List String
  exp : Option Int
deriving DecidableEq

/-- A token record (src/internal/store/store.go, `Token`). -/
structure Token where
  apiKey : String
  rateLimit : Int
  expiresAt : Int
  allowedRoutes : List String
deriving DecidableEq

/-- Errors returned by the token record store: the sentinel errors
`ErrNotFound`, `ErrExpired`, `ErrInvalid` (the latter wrapped with a
detail suffix), and any other backing-store error. -/
inductive StoreErr where
  | notFound
  | expired
  | invalid (detail : String)
  | other (detail : String)
deriving DecidableEq

/-- The `Error()` string of a `StoreErr`, as produced by the Go sentinel
errors and `fmt.Errorf("%w: ...", ErrInvalid)` wrapping. -/
def StoreErr.message : StoreErr → String
  | .notFound => "token not found"
  | .expired => "token expired"
  | .invalid d => "token record invalid" ++ d
  | .other d => d

/-! ### Access-control pipeline (src/unnamed/part_002, `Handler`)

The middleware's collaborators are oracle functions, matching the
`tokenStore`, `limiter` and `verifier` interfaces.  The limiter oracle
returns `(allowed, error)` as in Go.  The result records the response
status, whether the `WWW-Authenticate` challenge header was set (only
`unauthorized` sets it), the rejection reason (the message logged by
`unauthorized`, or the `http.Error` body for non-401 outcomes), how
many times each collaborator was invoked, and the claims attached to
the request context when the request is handed to `next` (the accepted
outcome is rendered as status 200, the next handler being a sink). -/

structure PipeResult where
  status : Nat
  challenge : Bool
  reason : String
  verifierCalls : Nat
  storeCalls : Nat
  limiterCalls : Nat
  nextClaims : Option Claims
deriving DecidableEq

/-- Result of `unauthorized`: 401, challenge header set. -/
def unauthorizedResult (reason : String) (v s l : Nat) : PipeResult :=
  { status := 401, challenge := true, reason := reason,
    verifierCalls := v, storeCalls := s, limiterCalls := l, nextClaims := none }

/-- Embedding of `AuthorizationMiddlewareService.Handler`
(src/unnamed/part_002, lines 66-140), transcribed branch by branch:
extract bearer, verify, check api_key, check expiry, check path scope,
resolve token record (any store error is answered by `unauthorized`),
check rate limit positive, call the limiter, accept. -/
def Handler (verify : String → Except String Claims)
    (getToken : String → Except StoreErr Token)
    (allow : String → Int → Bool × Option String)
    (now : Int) (authHeader path : String) : PipeResult :=
  match extractBearerS authHeader with
  | none => unauthorizedResult "missing bearer token" 0 0 0
  | some jwtStr =>
    match verify jwtStr with
    | .error e => unauthorizedResult ("invalid token: " ++ e) 1 0 0
    | .ok claims =>
      if claims.apiKey = "" then unauthorizedResult "missing api_key claim" 1 0 0
      else
        match claims.exp with
        | none => unauthorizedResult "token expired" 1 0 0
        | some exp =>
          if exp ≤ now then unauthorizedResult "token expired" 1 0 0
          else if claims.allowedRoutes ≠ [] ∧ isAllowedPathS path claims.allowedRoutes = false then
            { status := 403, challenge := false, reason := "Forbidden",
              verifierCalls := 1, storeCalls := 0, limiterCalls := 0, nextClaims := none }
          else
            match getToken claims.apiKey with
            | .error e => unauthorizedResult ("unknown token: " ++ e.message) 1 1 0
            | .ok tok =>
              if tok.rateLimit ≤ 0 then unauthorizedResult "token disabled" 1 1 0
              else
                match allow claims.apiKey tok.rateLimit with
                | (_, some _) =>
                  { status := 500, challenge := false, reason := "Rate limiter error",
                    verifierCalls := 1, storeCalls := 1, limiterCalls := 1, nextClaims := none }
                | (false, none) =>
                  { status := 429, challenge := false, reason := "Too Many Requests",
                    verifierCalls := 1, storeCalls := 1, limiterCalls := 1, nextClaims := none }
                | (true, none) =>
                  { status := 200, challenge := false, reason := "",
                    verifierCalls := 1, storeCalls := 1, limiterCalls := 1,
                    nextClaims := some claims }

/-! ### Rate limiter (src/internal/ratelimit/service/ratelimit.go, `Allow`) -/

/-- Result of `RateLimit.Allow`: the `(allowed, error)` pair together
with whether the counter store's `Incr` was invoked. -/
structure AllowResult where
  allowed : Bool
  err : Option String
  incrCalled : Bool
deriving DecidableEq

/-- Embedding of `RateLimit.Allow` (lines 40-57): reject an empty key or
a non-positive limit without touching the store; otherwise increment
via the counter store and allow iff the post-increment count is at most
the limit.  A store failure is wrapped and propagated. -/
def Allow (incr : String → Int → Except String Int) (window : Int)
    (key : String) (limit : Int) : AllowResult :=
  if key = "" then ⟨false, some "rate limit: empty key", false⟩
  else if limit ≤ 0 then ⟨false, some "rate limit: limit must be > 0", false⟩
  else
    match incr key window with
    | .error e => ⟨false, some ("rate limit: failed to increment counter: " ++ e), true⟩
    | .ok n => ⟨decide (n ≤ limit), none, true⟩

/-! ### Decimal rendering, modelling `fmt.Sprintf("%d", ·)`

The counter key embeds a window-start timestamp via `%d`.  A standard
base-10 printer is defined here (fuel-based so that it reduces in the
kernel) so that injectivity — needed for the different-windows,
different-keys property — can be proved. -/

/-- The character for one decimal digit `d < 10`. -/
def digitCh (d : Nat) : Char := Char.ofNat (48 + d)

/-- Base-10 digits of `n`, least significant first; `fuel ≥ n` suffices. -/
def digitsRevAux : Nat → Nat → List Nat
  | 0, _ => []
  | _ + 1, 0 => []
  | fuel + 1, m + 1 => ((m + 1) % 10) :: digitsRevAux fuel ((m + 1) / 10)

/-- Base-10 digits of `n`, least significant first. -/
def digitsRev (n : Nat) : List Nat := digitsRevAux n n

/-- The value denoted by a least-significant-first digit list. -/
def valRev : List Nat → Nat
  | [] => 0
  | d :: ds => d + 10 * valRev ds

/-- Decimal representation of a natural number, as `%d` prints it. -/
def natRepr (n : Nat) : List Char :=
  if n = 0 then ['0'] else ((digitsRev n).map digitCh).reverse

/-- Decimal representation of an integer, as `%d` prints an `int64`. -/
def intRepr (i : Int) : List Char :=
  if i < 0 then '-' :: natRepr (-i).toNat else natRepr i.toNat

/-- String-level decimal representation of an integer. -/
def intReprS (i : Int) : String := ⟨intRepr i⟩

/-! ### Fixed-window counter store
(src/internal/ratelimit/service/ratelimit.go, second fragment,
`package store`: `counterKey`, `incrScript`, `Incr`, `windowStart`)

The Redis backend holds, per key, an integer counter and an optional
TTL in milliseconds.  A missing counter is count 0 (Redis `INCR`
creates it at 1). -/

structure CtrState where
  counts : String → Int
  ttlMs : String → Option Int

/-- The empty counter backend: no counters, no TTLs. -/
def emptyCtr : CtrState := ⟨fun _ => 0, fun _ => none⟩

/-- Embedding of `windowStart(t, window).Unix()` (lines 129-138): `u` is
the clock's unix-seconds value, `window` is in nanoseconds.  `sec` is
`int64(window.Seconds())`, modelled as integer division (exact whenever
`window` is a whole number of seconds); when `sec ≤ 0` the original
instant is kept. -/
def windowStart (u window : Int) : Int :=
  let sec := window.tdiv 1000000000
  if sec ≤ 0 then u else u.tdiv sec * sec

/-- Embedding of `Store.counterKey` (lines 99-102):
`fmt.Sprintf("%s%s:%d", s.prefix, key, windowStart(s.now(), window).Unix())`. -/
def counterKey (pfx key : String) (u window : Int) : String :=
  pfx ++ key ++ ":" ++ intReprS (windowStart u window)

/-- Embedding of the Lua script run by `Incr` (lines 104-110) as one
atomic state transition: `INCR` the counter at `k`; if the resulting
value is 1, `PEXPIRE` it to `ttlArg` milliseconds; return the
post-increment count. -/
def incrScriptRun (st : CtrState) (k : String) (ttlArg : Int) : Int × CtrState :=
  let c := st.counts k + 1
  ( c,
    { counts := fun k' => if k' = k then c else st.counts k',
      ttlMs := if c = 1 then (fun k' => if k' = k then some ttlArg else st.ttlMs k')
               else st.ttlMs } )

/-- Embedding of `Store.Incr` (lines 112-127): reject a non-positive
window; derive the window-scoped key; run the atomic
increment-and-conditionally-expire script with
`ttlMs = window.Milliseconds() + 1000`. -/
def Incr (pfx : String) (now : Int) (st : CtrState) (key : String) (window : Int) :
    Except String Int × CtrState :=
  if window ≤ 0 then (.error "store: window must be > 0", st)
  else
    let k := counterKey pfx key now window
    let ttl := window.tdiv 1000000 + 1000
    let r := incrScriptRun st k ttl
    (.ok r.fst, r.snd)

/-- The counter-store state after `n` successive `Incr` calls for the
same prefix, clock instant, key and window, starting from the empty
backend. -/
def iterIncr (pfx : String) (now : Int) (key : String) (window : Int) : Nat → CtrState
  | 0 => emptyCtr
  | n + 1 => (Incr pfx now (iterIncr pfx now key window n) key window).snd

/-! ### Token record store (src/internal/store/store.go)

The Redis backend maps each key to a field list (`HGetAll` yields an
empty map for a missing key).  `time.Parse(time.RFC3339, ·)` and
`json.Unmarshal` for the routes list are external library calls,
modelled as oracle parameters returning `none` on parse failure. -/

structure TokenState where
  kv : String → List (String × String)

/-- Go map indexing `m[f]`: the zero value "" when the field is absent. -/
def mget (m : List (String × String)) (f : String) : String :=
  (m.lookup f).getD ""

/-- Digits accumulator for `goAtoi`. -/
def natDigitsAux : List Char → Nat → Option Nat
  | [], acc => some acc
  | c :: cs, acc =>
    if '0' ≤ c ∧ c ≤ '9' then natDigitsAux cs (acc * 10 + (c.toNat - 48)) else none

/-- All-digit parse for `goAtoi`; empty input is an error. -/
def natDigits (l : List Char) : Option Nat :=
  if l = [] then none else natDigitsAux l 0

/-- Embedding of `strconv.Atoi`: an optional sign followed by at least
one decimal digit; anything else is an error.  (Go additionally errors
on 64-bit overflow, which the unbounded model does not track.) -/
def goAtoi (s : String) : Option Int :=
  match s.data with
  | '+' :: ds => (natDigits ds).map Int.ofNat
  | '-' :: ds => (natDigits ds).map (fun n => -(Int.ofNat n : Int))
  | ds => (natDigits ds).map Int.ofNat

/-- Embedding of `decodeToken` (lines 148-191): take the stored
`api_key` field when non-empty, else the lookup key; require a
parseable, positive `rate_limit`; require a parseable `expires_at`;
decode `allowed_routes` when present (nil when the field is empty).
`parseTime` and `parseRoutes` stand for `time.Parse(time.RFC3339, ·)`
and `json.Unmarshal` on a string list. -/
def decodeToken (parseTime : String → Option Int)
    (parseRoutes : String → Option (List String))
    (apiKey : String) (m : List (String × String)) : Except StoreErr Token :=
  let a := mget m "api_key"
  let apiK := if a ≠ "" then a else apiKey
  let rls := mget m "rate_limit"
  if rls = "" then .error (.invalid ": missing rate_limit")
  else
    match goAtoi rls with
    | none => .error (.invalid ": invalid rate_limit")
    | some rl =>
      if rl ≤ 0 then .error (.invalid ": invalid rate_limit")
      else
        let exps := mget m "expires_at"
        if exps = "" then .error (.invalid ": missing expires_at")
        else
          match parseTime exps with
          | none => .error (.invalid ": invalid expires_at")
          | some exp =>
            let routes := mget m "allowed_routes"
            if routes = "" then
              .ok { apiKey := apiK, rateLimit := rl, expiresAt := exp, allowedRoutes := [] }
            else
              match parseRoutes routes with
              | none => .error (.invalid ": invalid allowed_routes")
              | some rs =>
                .ok { apiKey := apiK, rateLimit := rl, expiresAt := exp, allowedRoutes := rs }

/-- Embedding of `Store.GetToken` (lines 110-138): reject an empty api
key; `HGetAll` the record (an empty map is `ErrNotFound`); decode it;
if the decoded expiry is not strictly after the clock, best-effort
delete the record and fail with `ErrExpired`; otherwise return the
record.  The backing store itself is modelled as available (`HGetAll`
and `Del` do not fail). -/
def GetToken (parseTime : String → Option Int)
    (parseRoutes : String → Option (List String))
    (pfx : String) (now : Int) (st : TokenState) (apiKey : String) :
    Except StoreErr Token × TokenState :=
  if apiKey = "" then (.error (.invalid ": empty api_key"), st)
  else
    let key := pfx ++ apiKey
    let m := st.kv key
    if m = [] then (.error .notFound, st)
    else
      match decodeToken parseTime parseRoutes apiKey m with
      | .error e => (.error e, st)
      | .ok t =>
        if t.expiresAt ≤ now then
          (.error .expired, ⟨fun k' => if k' = key then [] else st.kv k'⟩)
        else (.ok t, st)

/-! ### Specification-side definitions

`claimPatternMatches` renders the specification's path-scope matching
rule literally, per pattern, for comparison with the implementation:
the empty path matches nothing; the pattern "*" matches; a pattern with
a trailing "*" matches exactly the paths having the pattern minus its
final "*" as a prefix; any other pattern matches only the identical
path.  No whitespace trimming appears in this rule. -/

def claimPatternMatches (path pat : List Char) : Bool :=
  if path = [] then false
  else if pat = ['*'] then true
  else if pat.getLast? = some '*' then pat.dropLast.isPrefixOf path
  else path = pat

/-- The specification's path-scope decision: some pattern matches. -/
def claimIsAllowedPath (path : List Char) (pats : List (List Char)) : Bool :=
  pats.any (claimPatternMatches path)

/-- Proof-side inverse of `natRepr`: read a decimal character list back
as a number (most significant digit first). -/
def charsVal (l : List Char) : Nat :=
  valRev (l.reverse.map (fun c => c.toNat - 48))

/-! ## Helper lemmas -/

theorem digitsRevAux_val : ∀ fuel n, n ≤ fuel → valRev (digitsRevAux fuel n) = n := by
  intro fuel
  induction fuel with
  | zero =>
    intro n hn
    obtain rfl : n = 0 := Nat.le_zero.mp hn
    rfl
  | succ f ih =>
    intro n hn
    match n with
    | 0 => rfl
    | m + 1 =>
      have hdiv : (m + 1) / 10 ≤ f := by
        have := Nat.div_lt_self (Nat.succ_pos m) (by norm_num : 1 < 10)
        omega
      simp only [digitsRevAux, valRev, ih _ hdiv]
      omega

theorem digitsRevAux_lt10 : ∀ fuel n d, d ∈ digitsRevAux fuel n → d < 10 := by
  intro fuel
  induction fuel with
  | zero => intro n d hd; simp [digitsRevAux] at hd
  | succ f ih =>
    intro n d hd
    match n with
    | 0 => simp [digitsRevAux] at hd
    | m + 1 =>
      simp only [digitsRevAux, List.mem_cons] at hd
      rcases hd with rfl | hd
      · exact Nat.mod_lt _ (by norm_num)
      · exact ih _ _ hd

theorem digitCh_val_of_lt10 : ∀ d, d < 10 → (digitCh d).toNat - 48 = d := by decide

theorem map_digitCh_roundtrip :
    ∀ ds : List Nat, (∀ d ∈ ds, d < 10) →
      (ds.map digitCh).map (fun c => c.toNat - 48) = ds := by
  intro ds h
  induction ds with
  | nil => rfl
  | cons d ds ih =>
    simp only [List.map_cons, List.cons.injEq]
    exact ⟨digitCh_val_of_lt10 d (h d (List.mem_cons_self d ds)),
      ih fun x hx => h x (List.mem_cons_of_mem d hx)⟩

theorem charsVal_natRepr (n : Nat) : charsVal (natRepr n) = n := by
  by_cases h : n = 0
  · subst h; rfl
  · unfold charsVal natRepr
    rw [if_neg h, List.reverse_reverse]
    unfold digitsRev
    rw [map_digitCh_roundtrip _ (fun d hd => digitsRevAux_lt10 n n d hd)]
    exact digitsRevAux_val n n le_rfl

theorem natRepr_inj {a b : Nat} (h : natRepr a = natRepr b) : a = b := by
  have := congrArg charsVal h
  rwa [charsVal_natRepr, charsVal_natRepr] at this

theorem intRepr_inj_of_nonneg {a b : Int} (ha : 0 ≤ a) (hb : 0 ≤ b)
    (h : intRepr a = intRepr b) : a = b := by
  unfold intRepr at h
  rw [if_neg (by omega), if_neg (by omega)] at h
  have := natRepr_inj h
  omega

theorem intReprS_inj_of_nonneg {a b : Int} (ha : 0 ≤ a) (hb : 0 ≤ b)
    (h : intReprS a = intReprS b) : a = b := by
  apply intRepr_inj_of_nonneg ha hb
  exact congrArg String.data h

theorem splitAtFirstSpace_eq_some (l : List Char) :
    ∀ a b, splitAtFirstSpace l = some (a, b) ↔ (l = a ++ ' ' :: b ∧ ' ' ∉ a) := by
  induction l with
  | nil =>
    intro a b
    simp only [splitAtFirstSpace]
    constructor
    · intro h; cases h
    · rintro ⟨h, -⟩; exact absurd h.symm (List.append_ne_nil_of_right_ne_nil a (by simp))
  | cons c cs ih =>
    intro a b
    by_cases hc : c = ' '
    · subst hc
      simp only [splitAtFirstSpace, if_pos rfl, Option.some.injEq, Prod.mk.injEq]
      constructor
      · rintro ⟨rfl, rfl⟩; simp
      · rintro ⟨heq, hns⟩
        cases a with
        | nil =>
          simp only [List.nil_append, List.cons.injEq] at heq
          simp [heq.2]
        | cons x a' =>
          simp only [List.cons_append, List.cons.injEq] at heq
          exact absurd (heq.1 ▸ List.mem_cons_self x a') hns
    · simp only [splitAtFirstSpace, if_neg hc]
      constructor
      · intro h
        cases hs : splitAtFirstSpace cs with
        | none => rw [hs] at h; cases h
        | some ab =>
          obtain ⟨a', b'⟩ := ab
          rw [hs] at h
          have h1 := (Option.some.injEq _ _).mp h
          obtain ⟨ha, hb⟩ : c :: a' = a ∧ b' = b :=
            ⟨congrArg Prod.fst h1, congrArg Prod.snd h1⟩
          subst ha
          subst hb
          obtain ⟨hcs, hna⟩ := (ih a' b').mp hs
          refine ⟨by rw [hcs]; rfl, ?_⟩
          intro hmem
          rcases List.mem_cons.mp hmem with h' | h'
          · exact hc h'.symm
          · exact hna h'
      · rintro ⟨heq, hns⟩
        cases a with
        | nil =>
          simp only [List.nil_append, List.cons.injEq] at heq
          exact absurd heq.1 hc
        | cons x a' =>
          simp only [List.cons_append, List.cons.injEq] at heq
          obtain ⟨rfl, hcs⟩ := heq
          have hna : ' ' ∉ a' := fun h' => hns (List.mem_cons_of_mem _ h')
          rw [(ih a' b).mpr ⟨hcs, hna⟩]

theorem int_tdiv_eq_fdiv_of_nonneg {a b : Int} (ha : 0 ≤ a) (hb : 0 ≤ b) :
    a.tdiv b = a.fdiv b := (Int.fdiv_eq_tdiv ha hb).symm

theorem string_append_data (s t : String) : (s ++ t).data = s.data ++ t.data := rfl

theorem counterKey_val_inj (pfx key : String) {x y : Int} (hx : 0 ≤ x) (hy : 0 ≤ y)
    (h : pfx ++ key ++ ":" ++ intReprS x = pfx ++ key ++ ":" ++ intReprS y) : x = y := by
  have hd := congrArg String.data h
  simp only [string_append_data] at hd
  exact intRepr_inj_of_nonneg hx hy (List.append_cancel_left hd)

theorem iterIncr_counts (pfx : String) (now : Int) (key : String) (window : Int)
    (hw : 0 < window) :
    ∀ n : Nat, (iterIncr pfx now key window n).counts (counterKey pfx key now window) = n := by
  intro n
  induction n with
  | zero => rfl
  | succ m ih =>
    show (Incr pfx now (iterIncr pfx now key window m) key window).snd.counts _ = _
    rw [Incr, if_neg (by omega)]
    simp only [incrScriptRun, if_pos rfl, ih]
    push_cast
    ring

/-! ## Claim theorems -/

/-- C4 (counterexample): the implementation trims each pattern before
applying the matching rule, which the claim as stated does not account
for.  For the path "/x" and the single pattern " *" (space, star), the
claim's rule classifies the pattern as trailing-star and requires the
prefix " ", which "/x" lacks, so it rejects; the code trims the pattern
to "*" and accepts. -/
theorem c4_counterexample :
    isAllowedPath ['/', 'x'] [[' ', '*']] = true ∧
    claimIsAllowedPath ['/', 'x'] [[' ', '*']] = false := by
  decide

/-- C4 (amended): path-scope matching equals the claim's per-pattern
rule — "*" matches any non-empty path, a trailing "*" matches exactly
the paths with the pattern minus its final "*" as a prefix, any other
pattern matches only the identical path, the empty path matches
nothing — applied to each pattern after whitespace-trimming it (a
pattern that trims to nothing matches nothing). -/
theorem c4_path_scope_trimmed (path : List Char) (pats : List (List Char)) :
    isAllowedPath path pats =
      pats.any (fun p => claimPatternMatches path (goTrimSpace p)) := by
  unfold isAllowedPath
  by_cases hp : path = []
  · subst hp
    simp [claimPatternMatches]
  · rw [if_neg hp]
    induction pats with
    | nil => rfl
    | cons p rest ih =>
      show isAllowedPath.isAllowedPathGo path (p :: rest) = _
      rw [isAllowedPath.isAllowedPathGo]
      simp only [List.any_cons]
      by_cases h1 : goTrimSpace p = []
      · rw [if_pos h1, ih]
        have hcl : claimPatternMatches path (goTrimSpace p) = false := by
          rw [h1]; unfold claimPatternMatches; simp [hp]
        rw [hcl]
        simp
      · rw [if_neg h1]
        by_cases h2 : goTrimSpace p = ['*']
        · rw [if_pos h2]
          have hcl : claimPatternMatches path (goTrimSpace p) = true := by
            unfold claimPatternMatches; simp [hp, h2]
          rw [hcl]
          simp
        · rw [if_neg h2]
          by_cases h3 : (goTrimSpace p).getLast? = some '*'
          · rw [if_pos h3]
            have hcl : claimPatternMatches path (goTrimSpace p) =
                (goTrimSpace p).dropLast.isPrefixOf path := by
              unfold claimPatternMatches; rw [if_neg hp, if_neg h2, if_pos h3]
            rw [hcl]
            cases hpre : (goTrimSpace p).dropLast.isPrefixOf path with
            | true => simp
            | false => simp [ih]
          · rw [if_neg h3]
            have hcl : claimPatternMatches path (goTrimSpace p) = decide (path = goTrimSpace p) := by
              unfold claimPatternMatches; rw [if_neg hp, if_neg h2, if_neg h3]
            rw [hcl]
            by_cases h4 : path = goTrimSpace p
            · simp [h4]
            · simp [h4, ih]

/-- C9: `Allow` with an empty key or a non-positive limit returns
`allowed = false` together with an error, and the counter store's
`Incr` is never invoked, so no counter state changes. -/
theorem c9_allow_rejects_without_incr
    (incr : String → Int → Except String Int) (window limit : Int) (key : String)
    (h : key = "" ∨ limit ≤ 0) :
    (Allow incr window key limit).allowed = false ∧
    (∃ e, (Allow incr window key limit).err = some e) ∧
    (Allow incr window key limit).incrCalled = false := by
  rcases h with h | h
  · subst h; simp [Allow]
  · by_cases hk : key = ""
    · subst hk; simp [Allow]
    · simp [Allow, if_neg hk, if_pos h]

/-- C3: for a non-empty key and a positive limit, `Allow` returns
`allowed` exactly when the post-increment count reported by the counter
store is at most the limit; consequently, running against the real
counter store within one fixed window (same clock instant), the
`(j+1)`-th request is allowed iff `j+1 ≤ limit`, i.e. exactly the first
`limit` requests in the window are allowed. -/
theorem c3_allow_iff_count_le_limit
    (incr : String → Int → Except String Int) (window limit : Int) (key : String)
    (hk : key ≠ "") (hl : 0 < limit) :
    (∀ n, incr key window = .ok n →
      Allow incr window key limit = ⟨decide (n ≤ limit), none, true⟩ ∧
      ((Allow incr window key limit).allowed = true ↔ n ≤ limit)) ∧
    (0 < window → ∀ (pfx : String) (now : Int) (j : Nat),
      Allow (fun k' w' => (Incr pfx now (iterIncr pfx now key window j) k' w').fst)
        window key limit = ⟨decide ((j + 1 : Int) ≤ limit), none, true⟩) := by
  have hln : ¬ limit ≤ 0 := by omega
  constructor
  · intro n hn
    have heq : Allow incr window key limit = ⟨decide (n ≤ limit), none, true⟩ := by
      unfold Allow
      rw [if_neg hk, if_neg hln, hn]
    exact ⟨heq, by rw [heq]; simp⟩
  · intro hw pfx now j
    have hfst : (Incr pfx now (iterIncr pfx now key window j) key window).fst =
        .ok ((j : Int) + 1) := by
      rw [Incr, if_neg (by omega)]
      simp only [incrScriptRun, iterIncr_counts pfx now key window hw j]
    unfold Allow
    rw [if_neg hk, if_neg hln]
    simp only [hfst]

/-- C5: for a positive window, `Incr` is the single atomic
increment-and-conditionally-expire script applied to the derived
window key: it returns the post-increment count; the expiry is set, to
`window.Milliseconds() + 1000` (i.e. window + 1000ms for whole-ms
windows), exactly when the post-increment value is 1; increments whose
post-increment value exceeds 1 leave every TTL untouched; no other key
is affected. -/
theorem c5_incr_atomic_expiry
    (pfx : String) (now : Int) (st : CtrState) (key : String) (window : Int)
    (hw : 0 < window) :
    Incr pfx now st key window =
      (.ok (incrScriptRun st (counterKey pfx key now window) (window.tdiv 1000000 + 1000)).fst,
       (incrScriptRun st (counterKey pfx key now window) (window.tdiv 1000000 + 1000)).snd) ∧
    (Incr pfx now st key window).fst =
      .ok (st.counts (counterKey pfx key now window) + 1) ∧
    (Incr pfx now st key window).snd.counts (counterKey pfx key now window) =
      st.counts (counterKey pfx key now window) + 1 ∧
    (st.counts (counterKey pfx key now window) + 1 = 1 →
      (Incr pfx now st key window).snd.ttlMs (counterKey pfx key now window) =
        some (window.tdiv 1000000 + 1000)) ∧
    (st.counts (counterKey pfx key now window) + 1 ≠ 1 →
      (Incr pfx now st key window).snd.ttlMs = st.ttlMs) ∧
    (∀ k', k' ≠ counterKey pfx key now window →
      (Incr pfx now st key window).snd.counts k' = st.counts k' ∧
      (Incr pfx now st key window).snd.ttlMs k' = st.ttlMs k') := by
  have hne : ¬ window ≤ 0 := by omega
  refine ⟨?_, ?_, ?_, ?_, ?_, ?_⟩
  · rw [Incr, if_neg hne]
  · rw [Incr, if_neg hne]; simp [incrScriptRun]
  · rw [Incr, if_neg hne]; simp [incrScriptRun]
  · intro h1; rw [Incr, if_neg hne]; simp [incrScriptRun, h1]
  · intro h1; rw [Incr, if_neg hne]; simp [incrScriptRun, h1]
  · intro k' hk'
    constructor
    · rw [Incr, if_neg hne]; simp [incrScriptRun, hk']
    · by_cases hc : st.counts (counterKey pfx key now window) + 1 = 1 <;>
        · rw [Incr, if_neg hne]; simp [incrScriptRun, hc, hk']

/-- C7: when a stored record decodes successfully but its expiry is not
strictly after the current time, `GetToken` fails with the Expired
error, deletes the record from the backing store (other keys
untouched), and never returns the stale record. -/
theorem c7_expired_token_deleted
    (pt : String → Option Int) (pr : String → Option (List String))
    (pfx : String) (now : Int) (st : TokenState) (apiKey : String) (t : Token)
    (hk : apiKey ≠ "")
    (hne : st.kv (pfx ++ apiKey) ≠ [])
    (hd : decodeToken pt pr apiKey (st.kv (pfx ++ apiKey)) = .ok t)
    (hexp : t.expiresAt ≤ now) :
    (GetToken pt pr pfx now st apiKey).fst = .error .expired ∧
    (GetToken pt pr pfx now st apiKey).snd.kv (pfx ++ apiKey) = [] ∧
    (∀ k', k' ≠ pfx ++ apiKey → (GetToken pt pr pfx now st apiKey).snd.kv k' = st.kv k') ∧
    (∀ u, (GetToken pt pr pfx now st apiKey).fst ≠ .ok u) := by
  have hres : GetToken pt pr pfx now st apiKey =
      (.error .expired, ⟨fun k' => if k' = pfx ++ apiKey then [] else st.kv k'⟩) := by
    unfold GetToken
    rw [if_neg hk, if_neg hne, hd]
    simp [hexp]
  refine ⟨by rw [hres], by rw [hres]; simp, ?_, ?_⟩
  · intro k' hk'; rw [hres]; simp [hk']
  · intro u; rw [hres]; simp

/-- A string append whose left part is already longer than the target
differs from it. -/
theorem string_append_ne_short (a b t : String) (hlt : t.length < a.length) :
    a ++ b ≠ t := by
  intro heq
  have hl := congrArg String.length heq
  rw [String.length_append] at hl
  omega

/-- Stage gating of the pipeline: the verifier is consulted only after
bearer extraction succeeds; the token store only after extraction,
verification, the api-key check, the expiry check and the path-scope
check all pass; the limiter only after the store lookup succeeds with a
positive rate limit. -/
theorem Handler_gating (verify : String → Except String Claims)
    (getToken : String → Except StoreErr Token)
    (allow : String → Int → Bool × Option String)
    (now : Int) (h' p' : String) :
    (0 < (Handler verify getToken allow now h' p').verifierCalls →
      ∃ jwt', extractBearerS h' = some jwt') ∧
    (0 < (Handler verify getToken allow now h' p').storeCalls →
      ∃ jwt' c' e', extractBearerS h' = some jwt' ∧ verify jwt' = .ok c' ∧
        c'.apiKey ≠ "" ∧ c'.exp = some e' ∧ now < e' ∧
        (c'.allowedRoutes = [] ∨ isAllowedPathS p' c'.allowedRoutes = true)) ∧
    (0 < (Handler verify getToken allow now h' p').limiterCalls →
      0 < (Handler verify getToken allow now h' p').storeCalls ∧
      ∃ jwt' c' tok, extractBearerS h' = some jwt' ∧ verify jwt' = .ok c' ∧
        getToken c'.apiKey = .ok tok ∧ 0 < tok.rateLimit) := by
  cases hb' : extractBearerS h' with
  | none =>
    refine ⟨fun hc => ?_, fun hc => ?_, fun hc => ?_⟩ <;>
      · simp only [Handler, hb', unauthorizedResult] at hc
        exact absurd hc (by decide)
  | some jwt' =>
    cases hv' : verify jwt' with
    | error e' =>
      refine ⟨fun _ => ⟨jwt', rfl⟩, fun hc => ?_, fun hc => ?_⟩ <;>
        · simp only [Handler, hb', hv', unauthorizedResult] at hc
          exact absurd hc (by decide)
    | ok c' =>
      by_cases hk' : c'.apiKey = ""
      · refine ⟨fun _ => ⟨jwt', rfl⟩, fun hc => ?_, fun hc => ?_⟩ <;>
          · simp only [Handler, hb', hv', if_pos hk', unauthorizedResult] at hc
            exact absurd hc (by decide)
      · cases he' : c'.exp with
        | none =>
          refine ⟨fun _ => ⟨jwt', rfl⟩, fun hc => ?_, fun hc => ?_⟩ <;>
            · simp only [Handler, hb', hv', if_neg hk', he', unauthorizedResult] at hc
              exact absurd hc (by decide)
        | some e' =>
          by_cases hle' : e' ≤ now
          · refine ⟨fun _ => ⟨jwt', rfl⟩, fun hc => ?_, fun hc => ?_⟩ <;>
              · simp only [Handler, hb', hv', if_neg hk', he', if_pos hle',
                  unauthorizedResult] at hc
                exact absurd hc (by decide)
          · by_cases hpath : c'.allowedRoutes ≠ [] ∧ isAllowedPathS p' c'.allowedRoutes = false
            · refine ⟨fun _ => ⟨jwt', rfl⟩, fun hc => ?_, fun hc => ?_⟩ <;>
                · simp only [Handler, hb', hv', if_neg hk', he', if_neg hle',
                    if_pos hpath] at hc
                  exact absurd hc (by decide)
            · have hroutes : c'.allowedRoutes = [] ∨ isAllowedPathS p' c'.allowedRoutes = true := by
                by_cases hA : c'.allowedRoutes = []
                · exact Or.inl hA
                · right
                  rcases not_and_or.mp hpath with hA' | hB
                  · exact absurd hA hA'
                  · cases hval : isAllowedPathS p' c'.allowedRoutes with
                    | true => rfl
                    | false => exact absurd hval hB
              have hstore : ∃ jwtW cW eW, (some jwt' : Option String) = some jwtW ∧
                  verify jwtW = .ok cW ∧ cW.apiKey ≠ "" ∧ cW.exp = some eW ∧ now < eW ∧
                  (cW.allowedRoutes = [] ∨ isAllowedPathS p' cW.allowedRoutes = true) :=
                ⟨jwt', c', e', rfl, hv', hk', he', by omega, hroutes⟩
              cases hs' : getToken c'.apiKey with
              | error se =>
                refine ⟨fun _ => ⟨jwt', rfl⟩, fun _ => hstore, fun hc => ?_⟩
                simp only [Handler, hb', hv', if_neg hk', he', if_neg hle',
                  if_neg hpath, hs', unauthorizedResult] at hc
                exact absurd hc (by decide)
              | ok tok =>
                by_cases hrl : tok.rateLimit ≤ 0
                · refine ⟨fun _ => ⟨jwt', rfl⟩, fun _ => hstore, fun hc => ?_⟩
                  simp only [Handler, hb', hv', if_neg hk', he', if_neg hle',
                    if_neg hpath, hs', if_pos hrl, unauthorizedResult] at hc
                  exact absurd hc (by decide)
                · refine ⟨fun _ => ⟨jwt', rfl⟩, fun _ => hstore, fun _ => ?_⟩
                  refine ⟨?_, jwt', c', tok, rfl, hv', hs', by omega⟩
                  simp only [Handler, hb', hv', if_neg hk', he', if_neg hle',
                    if_neg hpath, hs', if_neg hrl]
                  cases hal : allow c'.apiKey tok.rateLimit with
                  | mk al erro =>
                    cases erro with
                    | none => cases al <;> exact Nat.one_pos
                    | some msg => cases al <;> exact Nat.one_pos

/-- C1 (code evaluation at the failing input): for every store error
`e` — including errors that are neither NotFound nor Expired, such as a
backend outage — the pipeline answers 401 with the challenge header
(the `unauthorized` outcome with reason "unknown token: " followed by
the error text), never 503. -/
theorem c1_store_error_always_401 (e : StoreErr) :
    Handler (fun _ => .ok ⟨"k1", [], some 100⟩) (fun _ => .error e)
      (fun _ _ => (true, none)) 0 "Bearer tok" "/api/v1/test" =
    unauthorizedResult ("unknown token: " ++ e.message) 1 1 0 := by
  cases e <;> rfl

/-- C2: a request whose verified claims carry an expiry not strictly
after the current time terminates with the expiry rejection (401,
challenge set, reason "token expired"), with the token store and the
limiter never called — whatever the token record holds; and in general
each stage collaborator is invoked only if every earlier stage
passed. -/
theorem c2_expiry_short_circuit
    (verify : String → Except String Claims)
    (getToken : String → Except StoreErr Token)
    (allow : String → Int → Bool × Option String)
    (now : Int) (h p jwt : String) (c : Claims) (e : Int)
    (hb : extractBearerS h = some jwt) (hv : verify jwt = .ok c)
    (hk : c.apiKey ≠ "") (he : c.exp = some e) (hle : e ≤ now) :
    Handler verify getToken allow now h p = unauthorizedResult "token expired" 1 0 0 ∧
    (∀ h' p',
      (0 < (Handler verify getToken allow now h' p').verifierCalls →
        ∃ jwt', extractBearerS h' = some jwt') ∧
      (0 < (Handler verify getToken allow now h' p').storeCalls →
        ∃ jwt' c' e', extractBearerS h' = some jwt' ∧ verify jwt' = .ok c' ∧
          c'.apiKey ≠ "" ∧ c'.exp = some e' ∧ now < e' ∧
          (c'.allowedRoutes = [] ∨ isAllowedPathS p' c'.allowedRoutes = true)) ∧
      (0 < (Handler verify getToken allow now h' p').limiterCalls →
        0 < (Handler verify getToken allow now h' p').storeCalls ∧
        ∃ jwt' c' tok, extractBearerS h' = some jwt' ∧ verify jwt' = .ok c' ∧
          getToken c'.apiKey = .ok tok ∧ 0 < tok.rateLimit)) := by
  constructor
  · simp only [Handler, hb, hv, he]
    rw [if_neg hk, if_pos hle]
  · intro h' p'
    exact Handler_gating verify getToken allow now h' p'

/-- C8: an Authorization header value is accepted exactly when, after
whitespace-trimming, it splits at its first space into a
case-insensitively-"Bearer" first part and a second part that trims to
a non-empty token, which is the returned credential; whenever
extraction fails (in particular for an absent header, whose value is
the empty string) the pipeline answers 401 with the challenge header
and calls none of the verifier, token store or limiter. -/
theorem c8_bearer_extraction :
    (∀ (v t : List Char), extractBearer v = some t ↔
      ∃ a b, goTrimSpace v = a ++ ' ' :: b ∧ ' ' ∉ a ∧
        goEqualFold a bearerChars = true ∧ goTrimSpace b = t ∧ t ≠ []) ∧
    (∀ (verify : String → Except String Claims) (getToken : String → Except StoreErr Token)
       (allow : String → Int → Bool × Option String) (now : Int) (h p : String),
       extractBearerS h = none →
       Handler verify getToken allow now h p =
         unauthorizedResult "missing bearer token" 0 0 0) := by
  constructor
  · intro v t
    simp only [extractBearer]
    by_cases hv : goTrimSpace v = []
    · rw [if_pos hv]
      constructor
      · intro h; cases h
      · rintro ⟨a, b, hab, -, -, -, -⟩
        rw [hv] at hab
        exact absurd hab.symm (List.append_ne_nil_of_right_ne_nil a (by simp))
    · rw [if_neg hv]
      cases hs : splitAtFirstSpace (goTrimSpace v) with
      | none =>
        constructor
        · intro h; cases h
        · rintro ⟨a, b, hab, hna, -, -, -⟩
          have hsome := (splitAtFirstSpace_eq_some (goTrimSpace v) a b).mpr ⟨hab, hna⟩
          rw [hs] at hsome
          cases hsome
      | some ab =>
        obtain ⟨p0, p1⟩ := ab
        obtain ⟨hsp, hnsp⟩ := (splitAtFirstSpace_eq_some (goTrimSpace v) p0 p1).mp hs
        constructor
        · intro h
          replace h : (if goEqualFold p0 bearerChars = true then
              if goTrimSpace p1 = [] then none else some (goTrimSpace p1)
            else none) = some t := h
          by_cases hf : goEqualFold p0 bearerChars = true
          · rw [if_pos hf] at h
            by_cases ht : goTrimSpace p1 = []
            · rw [if_pos ht] at h; cases h
            · rw [if_neg ht] at h
              have hts := (Option.some.injEq _ _).mp h
              exact ⟨p0, p1, hsp, hnsp, hf, hts, hts ▸ ht⟩
          · rw [if_neg hf] at h; cases h
        · rintro ⟨a, b, hab, hna, hf, hbt, htne⟩
          show (if goEqualFold p0 bearerChars = true then
              if goTrimSpace p1 = [] then none else some (goTrimSpace p1)
            else none) = some t
          have hsome := (splitAtFirstSpace_eq_some (goTrimSpace v) a b).mpr ⟨hab, hna⟩
          rw [hs] at hsome
          have hpq := (Option.some.injEq _ _).mp hsome
          obtain ⟨ha', hb'⟩ : p0 = a ∧ p1 = b :=
            ⟨congrArg Prod.fst hpq, congrArg Prod.snd hpq⟩
          subst ha'
          subst hb'
          rw [if_pos hf, hbt, if_neg htne]
  · intro verify getToken allow now h p hB
    simp only [Handler, hB]

/-- C10: every token decoded by the real store carries a rate limit of
at least 1 (`decodeToken` rejects a missing, unparseable or
non-positive `rate_limit` as Invalid), hence every successful
`GetToken` does too; consequently, against any store with that
property, the pipeline's "token disabled" rejection can never fire. -/
theorem c10_store_tokens_enabled :
    (∀ (pt : String → Option Int) (pr : String → Option (List String))
       (apiKey : String) (m : List (String × String)) (t : Token),
       decodeToken pt pr apiKey m = .ok t → 1 ≤ t.rateLimit) ∧
    (∀ (pt : String → Option Int) (pr : String → Option (List String))
       (pfx : String) (now : Int) (st : TokenState) (apiKey : String) (t : Token),
       (GetToken pt pr pfx now st apiKey).fst = .ok t → 1 ≤ t.rateLimit) ∧
    (∀ (verify : String → Except String Claims) (getToken : String → Except StoreErr Token)
       (allow : String → Int → Bool × Option String) (now : Int) (h p : String),
       (∀ k t, getToken k = .ok t → 0 < t.rateLimit) →
       (Handler verify getToken allow now h p).reason ≠ "token disabled") := by
  have hdec : ∀ (pt : String → Option Int) (pr : String → Option (List String))
      (apiKey : String) (m : List (String × String)) (t : Token),
      decodeToken pt pr apiKey m = .ok t → 1 ≤ t.rateLimit := by
    intro pt pr apiKey m t hd
    simp only [decodeToken] at hd
    by_cases h1 : mget m "rate_limit" = ""
    · rw [if_pos h1] at hd; cases hd
    · rw [if_neg h1] at hd
      cases ha : goAtoi (mget m "rate_limit") with
      | none => rw [ha] at hd; cases hd
      | some rl =>
        simp only [ha] at hd
        by_cases h2 : rl ≤ 0
        · rw [if_pos h2] at hd; cases hd
        · rw [if_neg h2] at hd
          by_cases h3 : mget m "expires_at" = ""
          · rw [if_pos h3] at hd; cases hd
          · rw [if_neg h3] at hd
            cases hp : pt (mget m "expires_at") with
            | none => rw [hp] at hd; cases hd
            | some exp =>
              simp only [hp] at hd
              by_cases h4 : mget m "allowed_routes" = ""
              · rw [if_pos h4] at hd
                obtain rfl := (Except.ok.injEq _ _).mp hd
                dsimp only
                omega
              · rw [if_neg h4] at hd
                cases hr : pr (mget m "allowed_routes") with
                | none => rw [hr] at hd; cases hd
                | some rs =>
                  simp only [hr] at hd
                  obtain rfl := (Except.ok.injEq _ _).mp hd
                  dsimp only
                  omega
  have hget : ∀ (pt : String → Option Int) (pr : String → Option (List String))
      (pfx : String) (now : Int) (st : TokenState) (apiKey : String) (t : Token),
      (GetToken pt pr pfx now st apiKey).fst = .ok t → 1 ≤ t.rateLimit := by
    intro pt pr pfx now st apiKey t hg
    by_cases hk : apiKey = ""
    · simp only [GetToken, if_pos hk] at hg; cases hg
    · by_cases hm : st.kv (pfx ++ apiKey) = []
      · simp only [GetToken, if_neg hk, if_pos hm] at hg; cases hg
      · cases hd : decodeToken pt pr apiKey (st.kv (pfx ++ apiKey)) with
        | error e => simp only [GetToken, if_neg hk, if_neg hm, hd] at hg; cases hg
        | ok u =>
          by_cases hexp : u.expiresAt ≤ now
          · simp only [GetToken, if_neg hk, if_neg hm, hd, if_pos hexp] at hg; cases hg
          · simp only [GetToken, if_neg hk, if_neg hm, hd, if_neg hexp] at hg
            obtain rfl := (Except.ok.injEq _ _).mp hg
            exact hdec pt pr apiKey _ _ hd
  refine ⟨hdec, hget, ?_⟩
  intro verify getToken allow now h p hstore
  cases hb : extractBearerS h with
  | none =>
    simp only [Handler, hb]
    exact (by decide : ("missing bearer token" : String) ≠ "token disabled")
  | some jwt =>
    cases hv : verify jwt with
    | error e =>
      simp only [Handler, hb, hv, unauthorizedResult]
      exact string_append_ne_short "invalid token: " e "token disabled" (by decide)
    | ok c =>
      by_cases hk : c.apiKey = ""
      · simp only [Handler, hb, hv, if_pos hk]
        exact (by decide : ("missing api_key claim" : String) ≠ "token disabled")
      · cases he : c.exp with
        | none =>
          simp only [Handler, hb, hv, if_neg hk, he]
          exact (by decide : ("token expired" : String) ≠ "token disabled")
        | some e' =>
          by_cases hle : e' ≤ now
          · simp only [Handler, hb, hv, if_neg hk, he, if_pos hle]
            exact (by decide : ("token expired" : String) ≠ "token disabled")
          · by_cases hpath : c.allowedRoutes ≠ [] ∧ isAllowedPathS p c.allowedRoutes = false
            · simp only [Handler, hb, hv, if_neg hk, he, if_neg hle, if_pos hpath]
              exact (by decide : ("Forbidden" : String) ≠ "token disabled")
            · cases hs : getToken c.apiKey with
              | error se =>
                simp only [Handler, hb, hv, if_neg hk, he, if_neg hle, if_neg hpath, hs,
                  unauthorizedResult]
                exact string_append_ne_short "unknown token: " se.message "token disabled"
                  (by decide)
              | ok tok =>
                have hpos := hstore c.apiKey tok hs
                simp only [Handler, hb, hv, if_neg hk, he, if_neg hle, if_neg hpath, hs,
                  if_neg (show ¬ tok.rateLimit ≤ 0 by omega)]
                cases hal : allow c.apiKey tok.rateLimit with
                | mk al erro =>
                  cases erro with
                  | some msg =>
                    cases al <;>
                      exact (by decide : ("Rate limiter error" : String) ≠ "token disabled")
                  | none =>
                    cases al with
                    | false => exact (by decide : ("Too Many Requests" : String) ≠ "token disabled")
                    | true => exact (by decide : ("" : String) ≠ "token disabled")

/-- C6: for a window that is a positive whole number `sec` of seconds
and clock instants at or after the epoch, `Incr` derives the storage
key prefix ++ key ++ ":" ++ decimal(floor(now_unix / sec) * sec); two
calls whose clock times fall in the same window (equal floors) derive
the same storage key, and calls whose clock times fall in different
windows derive different keys. -/
theorem c6_window_key_derivation
    (pfx key : String) (window sec u u' : Int)
    (hw : window = sec * 1000000000) (hs : 0 < sec) (hu : 0 ≤ u) (hu' : 0 ≤ u') :
    counterKey pfx key u window = pfx ++ key ++ ":" ++ intReprS (u.fdiv sec * sec) ∧
    (u.fdiv sec = u'.fdiv sec →
      counterKey pfx key u window = counterKey pfx key u' window) ∧
    (u.fdiv sec ≠ u'.fdiv sec →
      counterKey pfx key u window ≠ counterKey pfx key u' window) := by
  subst hw
  have hsec : (sec * 1000000000).tdiv 1000000000 = sec :=
    Int.mul_tdiv_cancel sec (by norm_num)
  have hws : ∀ x : Int, 0 ≤ x → windowStart x (sec * 1000000000) = x.fdiv sec * sec := by
    intro x hx
    unfold windowStart
    rw [hsec, if_neg (by omega), Int.fdiv_eq_tdiv hx (by omega)]
  have hnn : ∀ x : Int, 0 ≤ x → 0 ≤ x.fdiv sec * sec := by
    intro x hx
    have : 0 ≤ x.fdiv sec := by
      rw [Int.fdiv_eq_tdiv hx (by omega)]
      exact Int.tdiv_nonneg hx (by omega)
    exact mul_nonneg this (by omega)
  refine ⟨?_, ?_, ?_⟩
  · unfold counterKey
    rw [hws u hu]
  · intro heq
    unfold counterKey
    rw [hws u hu, hws u' hu', heq]
  · intro hne heq
    unfold counterKey at heq
    rw [hws u hu, hws u' hu'] at heq
    have hval := counterKey_val_inj pfx key (hnn u hu) (hnn u' hu') heq
    exact hne (mul_right_cancel₀ (by omega : sec ≠ 0) hval)

/-- Witness for C2 at a concrete request: expired claim (exp 5, now
10) with a disabled token record in the store; the expiry rejection
wins and the store is never consulted. -/
theorem c2_expiry_short_circuit_witness :
    Handler (fun _ => .ok ⟨"k1", [], some 5⟩) (fun _ => .ok ⟨"k1", 0, 99, []⟩)
      (fun _ _ => (true, none)) 10 "Bearer x" "/a" =
      unauthorizedResult "token expired" 1 0 0 :=
  (c2_expiry_short_circuit (fun _ => .ok ⟨"k1", [], some 5⟩)
    (fun _ => .ok ⟨"k1", 0, 99, []⟩) (fun _ _ => (true, none)) 10 "Bearer x" "/a" "x"
    ⟨"k1", [], some 5⟩ 5 (by decide) rfl (by decide) rfl (by decide)).1

/-- Witness for C3: with a post-increment count of 1 and limit 2 the
request is allowed, and the first request against the real counter
store is allowed. -/
theorem c3_allow_iff_count_le_limit_witness :
    Allow (fun _ _ => .ok 1) 60000000000 "k" 2 = ⟨decide ((1 : Int) ≤ 2), none, true⟩ ∧
    Allow (fun k' w' =>
        (Incr "rate_count:" 0 (iterIncr "rate_count:" 0 "k" 60000000000 0) k' w').fst)
      60000000000 "k" 2 = ⟨decide ((0 + 1 : Int) ≤ 2), none, true⟩ :=
  ⟨((c3_allow_iff_count_le_limit (fun _ _ => .ok 1) 60000000000 2 "k"
      (by decide) (by decide)).1 1 rfl).1,
   (c3_allow_iff_count_le_limit (fun _ _ => .ok 1) 60000000000 2 "k"
      (by decide) (by decide)).2 (by decide) "rate_count:" 0 0⟩

/-- Witness for C5 at a fresh counter and a 60-second window: the call
returns the post-increment count and sets the 61000 ms expiry. -/
theorem c5_incr_atomic_expiry_witness :
    (Incr "rate_count:" 0 emptyCtr "k" 60000000000).fst =
      .ok (emptyCtr.counts (counterKey "rate_count:" "k" 0 60000000000) + 1) ∧
    (Incr "rate_count:" 0 emptyCtr "k" 60000000000).snd.ttlMs
      (counterKey "rate_count:" "k" 0 60000000000) =
      some ((60000000000 : Int).tdiv 1000000 + 1000) :=
  ⟨(c5_incr_atomic_expiry "rate_count:" 0 emptyCtr "k" 60000000000 (by decide)).2.1,
   (c5_incr_atomic_expiry "rate_count:" 0 emptyCtr "k" 60000000000 (by decide)).2.2.2.1
     (by decide)⟩

/-- Witness for C6: clock instants 125 and 65 fall in different
60-second windows and derive different storage keys. -/
theorem c6_window_key_derivation_witness :
    counterKey "rate_count:" "k1" 125 60000000000 ≠
      counterKey "rate_count:" "k1" 65 60000000000 :=
  (c6_window_key_derivation "rate_count:" "k1" 60000000000 60 125 65
    (by decide) (by decide) (by decide) (by decide)).2.2 (by decide)

/-- Witness for C7: a stored record with rate limit 5 whose expiry
decodes to instant 50 is read at instant 100 and yields Expired. -/
theorem c7_expired_token_deleted_witness :
    (GetToken (fun s => if s = "E" then some 50 else none) (fun _ => none) "token:" 100
      ⟨fun k => if k = "token:k1" then [("rate_limit", "5"), ("expires_at", "E")] else []⟩
      "k1").fst = .error .expired :=
  (c7_expired_token_deleted (fun s => if s = "E" then some 50 else none) (fun _ => none)
    "token:" 100
    ⟨fun k => if k = "token:k1" then [("rate_limit", "5"), ("expires_at", "E")] else []⟩
    "k1" ⟨"k1", 5, 50, []⟩ (by decide) (by decide) rfl (by decide)).1

/-- Witness for C8: a request with no Authorization header (empty
value) is answered 401 with the challenge header and no collaborator
calls. -/
theorem c8_bearer_extraction_witness :
    Handler (fun _ => .error "x") (fun _ => .error .notFound) (fun _ _ => (false, none))
      0 "" "/x" = unauthorizedResult "missing bearer token" 0 0 0 :=
  c8_bearer_extraction.2 (fun _ => .error "x") (fun _ => .error .notFound)
    (fun _ _ => (false, none)) 0 "" "/x" rfl

/-- Witness for C9: an empty key is rejected without calling `Incr`. -/
theorem c9_allow_rejects_without_incr_witness :
    (Allow (fun _ _ => .ok 1) 60000000000 "" 5).incrCalled = false :=
  (c9_allow_rejects_without_incr (fun _ _ => .ok 1) 60000000000 5 "" (Or.inl rfl)).2.2

/-- Witness for C10: against a store that only returns a record with
rate limit 5, a concrete request never sees the disabled rejection. -/
theorem c10_store_tokens_enabled_witness :
    (Handler (fun _ => .ok ⟨"k1", [], some 100⟩) (fun _ => .ok ⟨"k1", 5, 200, []⟩)
      (fun _ _ => (true, none)) 0 "Bearer tok" "/x").reason ≠ "token disabled" :=
  c10_store_tokens_enabled.2.2 (fun _ => .ok ⟨"k1", [], some 100⟩)
    (fun _ => .ok ⟨"k1", 5, 200, []⟩) (fun _ _ => (true, none)) 0 "Bearer tok" "/x"
    (fun k t ht => by
      injection ht with hh
      subst hh
      decide)

end TykProxy
